import Mathlib

/-!
Verification of the vested-airdrop claim contract (Merkle-allowlist vesting
system).  The contract source is not present in the repository snapshot (only
its test suite and deployment script are), so every operational definition
below is modelled from the specification document, faithful to its words:
the commitment verifier (spec 4.1), the vesting calculator (spec 4.2), the
claim ledger (spec 4.3), the access-controlled configuration (spec 4.4) and
the orchestrated claim protocol (spec 4.5), together with the read-only query
surface (spec 6) and the error taxonomy (spec 7).
-/

namespace VestedClaims

/-- Recipient identities.  `0` is the designated null/zero identity
(the zero address of the chain). -/
abbrev Address := Nat

/-- Abstract 32-byte hash values, modelled as naturals. -/
abbrev Hash := Nat

/-- Modelled from the spec: the deployment-time configuration of the missing
contract `VestedAirdrop` — the abstract hash primitive and leaf encoding used
by the commitment verifier (spec 4.1), the owner identity (spec 3), and the
immutable vesting schedule `(vesting_start_time, vesting_end_time)` with the
invariant `vesting_end_time > vesting_start_time` (spec 3, VestingSchedule).
The instant-release fraction is fixed at 31/100. -/
structure Config where
  hash2 : Hash → Hash → Hash
  leaf : Address → Nat → Hash
  owner : Address
  vesting_start_time : Nat
  vesting_end_time : Nat

/-- Modelled from the spec: the error taxonomy of spec 7.  Every error is a
rejection of the current transaction, fully reverting any state change. -/
inductive ClaimError where
  | NotOwner
  | ClaimingNotYetAvailable
  | InvalidProof
  | NothingToClaim
  | TransferFailed
deriving DecidableEq

/-- Modelled from the spec: the mutable state of the missing contract —
the commitment root (spec 3, CommitmentRoot), the per-recipient cumulative
claimed ledger with implicit zero default (spec 3, ClaimedAmount), the log of
claim payouts requested from the external token ledger (spec 4.3), and the
contract's own token custody balance (spec 6, token ledger capability). -/
structure State where
  merkle_root : Hash
  claimed_amount : Address → Nat
  payouts : List (Address × Nat)
  pool : Nat

/-- Modelled from the spec: order-independent pairwise hash — the two
operands are sorted into canonical order before hashing (spec 4.1). -/
def hash_pair (cfg : Config) (a b : Hash) : Hash :=
  if a ≤ b then cfg.hash2 a b else cfg.hash2 b a

/-- Modelled from the spec: recompute a candidate root by iteratively
combining the running hash with each proof element (spec 4.1). -/
def process_proof (cfg : Config) (leaf : Hash) (proof : List Hash) : Hash :=
  proof.foldl (hash_pair cfg) leaf

/-- Modelled from the spec: the commitment verifier
`verify(root, recipient, total_amount, proof) -> bool` (spec 4.1):
true iff the root recomputed from the leaf of `(recipient, total_amount)`
equals the stored commitment root. -/
def verify_proof (cfg : Config) (root : Hash) (recipient : Address)
    (total_amount : Nat) (proof : List Hash) : Bool :=
  process_proof cfg (cfg.leaf recipient total_amount) proof == root

/-- Modelled from the spec: `instant = floor(total_amount * instant_fraction)`
with `instant_fraction = 31/100` (spec 4.2). -/
def instant_release (total_amount : Nat) : Nat :=
  total_amount * 31 / 100

/-- Modelled from the spec: `linear_pool = total_amount - instant`, computed
so the two never double-round (spec 4.2). -/
def linear_vesting (total_amount : Nat) : Nat :=
  total_amount - instant_release total_amount

/-- Modelled from the spec: the vesting calculator
`unlocked_to_date(now, total_amount, schedule) -> amount` (spec 4.2), a pure
function: saturate to `total_amount` at and after `vesting_end_time`,
otherwise `instant + floor(linear_pool * elapsed / duration)` with truncating
integer division. -/
def calculate_vested_amount (cfg : Config) (total_amount now : Nat) : Nat :=
  if cfg.vesting_end_time ≤ now then
    total_amount
  else
    instant_release total_amount +
      linear_vesting total_amount * (now - cfg.vesting_start_time) /
        (cfg.vesting_end_time - cfg.vesting_start_time)

/-- Modelled from the spec: the claim ledger's incremental payable amount
(spec 4.3), `payable = unlocked_to_date(now, total_amount, schedule) -
claimed_amount[recipient]`, a (possibly negative) signed quantity. -/
def payable (cfg : Config) (s : State) (recipient : Address)
    (total_amount now : Nat) : Int :=
  (calculate_vested_amount cfg total_amount now : Int) -
    (s.claimed_amount recipient : Int)

/-- Modelled from the spec: the orchestrated claim protocol (spec 4.5),
steps in order: (1) zero-identity guard — silent no-op returning `0` with no
state mutation; (2) start-time gate — `ClaimingNotYetAvailable`;
(3) membership check — `InvalidProof`; (4) entitlement computation and ledger
update — failing with `NothingToClaim` when `payable <= 0`, requesting the
transfer from the token custody (`TransferFailed` when the pool cannot cover
it), and otherwise atomically recording
`claimed_amount[recipient] += payable`, appending the payout to the log and
debiting the pool.  `now` is supplied by the execution environment
(spec 5). -/
def claim (cfg : Config) (s : State) (recipient : Address)
    (total_amount : Nat) (proof : List Hash) (now : Nat) :
    Except ClaimError (Nat × State) :=
  if recipient = 0 then
    .ok (0, s)
  else if now < cfg.vesting_start_time then
    .error .ClaimingNotYetAvailable
  else if verify_proof cfg s.merkle_root recipient total_amount proof then
    if payable cfg s recipient total_amount now ≤ 0 then
      .error .NothingToClaim
    else if s.pool < (payable cfg s recipient total_amount now).toNat then
      .error .TransferFailed
    else
      .ok ((payable cfg s recipient total_amount now).toNat,
        { s with
          claimed_amount := fun a =>
            if a = recipient then
              s.claimed_amount recipient +
                (payable cfg s recipient total_amount now).toNat
            else s.claimed_amount a
          payouts := s.payouts ++
            [(recipient, (payable cfg s recipient total_amount now).toNat)]
          pool := s.pool - (payable cfg s recipient total_amount now).toNat })
  else
    .error .InvalidProof

/-- The amount paid by a claim transaction (the observable return value). -/
def claim_result (cfg : Config) (s : State) (recipient : Address)
    (total_amount : Nat) (proof : List Hash) (now : Nat) :
    Except ClaimError Nat :=
  (claim cfg s recipient total_amount proof now).map Prod.fst

/-- The state after a claim transaction: the new state on success, the
unchanged state on any rejection (all rejections fully revert, spec 7). -/
def claim_state (cfg : Config) (s : State) (recipient : Address)
    (total_amount : Nat) (proof : List Hash) (now : Nat) : State :=
  match claim cfg s recipient total_amount proof now with
  | .ok (_, s2) => s2
  | .error _ => s

/-- Modelled from the spec: the read-only query surface
`claimable_amount(recipient, total_amount) -> amount` (spec 6), exposing the
computation of 4.2+4.3 without mutating state; it must match the amount a
subsequent claim would pay, hence it mirrors the zero-identity short-circuit
of the claim protocol and otherwise returns the vested-minus-claimed delta
(clamped at zero). -/
def claimable_amount (cfg : Config) (s : State) (recipient : Address)
    (total_amount now : Nat) : Nat :=
  if recipient = 0 then 0
  else
    ((calculate_vested_amount cfg total_amount now : Int) -
      (s.claimed_amount recipient : Int)).toNat

/-- Modelled from the spec: `set_commitment_root(new_root)` — owner-only,
unconditionally replaces the commitment root (spec 4.4). -/
def set_merkle_root (cfg : Config) (s : State) (caller : Address)
    (new_root : Hash) : Except ClaimError State :=
  if caller = cfg.owner then
    .ok { s with merkle_root := new_root }
  else
    .error .NotOwner

/-- Modelled from the spec: `rescue(token_reference, amount)` — owner-only,
instructs the token ledger to transfer `amount` out of the contract's
custody to the owner (spec 4.4); fails with `TransferFailed` when the
custody balance cannot cover it (spec 7). -/
def rescue_tokens (cfg : Config) (s : State) (caller : Address)
    (amount : Nat) : Except ClaimError State :=
  if caller = cfg.owner then
    if s.pool < amount then .error .TransferFailed
    else .ok { s with pool := s.pool - amount }
  else
    .error .NotOwner

/-- The operations that touch shared state (spec 5: claims, root rotations,
rescues, each an indivisible transaction). -/
inductive Op where
  | claim (recipient : Address) (total_amount : Nat) (proof : List Hash)
      (now : Nat)
  | set_merkle_root (caller : Address) (new_root : Hash)
  | rescue_tokens (caller : Address) (amount : Nat)
deriving DecidableEq

/-- One transaction against shared state: the new state on success, the
unchanged state on rejection (transactions fully roll back, spec 5). -/
def step (cfg : Config) (s : State) : Op → State
  | .claim r t proof now => claim_state cfg s r t proof now
  | .set_merkle_root c root =>
      match set_merkle_root cfg s c root with
      | .ok s2 => s2
      | .error _ => s
  | .rescue_tokens c a =>
      match rescue_tokens cfg s c a with
      | .ok s2 => s2
      | .error _ => s

/-- Sequential execution of a list of transactions (spec 5:
sequentially-consistent ledger). -/
def exec (cfg : Config) (s : State) (ops : List Op) : State :=
  ops.foldl (step cfg) s

/-- The deployment state: a commitment root, an all-zero claimed ledger,
an empty payout log, and an initial token funding of the custody pool. -/
def init (root : Hash) (pool : Nat) : State :=
  { merkle_root := root
    claimed_amount := fun _ => 0
    payouts := []
    pool := pool }

/-- Sum of the payouts received by recipient `r` in a payout log. -/
def payout_sum (r : Address) : List (Address × Nat) → Nat
  | [] => 0
  | e :: l => (if e.1 = r then e.2 else 0) + payout_sum r l

/-- The total amount named by an operation when it is a claim for
recipient `r`. -/
def claim_total_for (r : Address) : Op → Option Nat
  | .claim r2 t _ _ => if r2 = r then some t else none
  | _ => none

/-- A sequence of claim transactions for one recipient at the given times. -/
def claim_ops (r : Address) (total : Nat) (proof : List Hash)
    (ts : List Nat) : List Op :=
  ts.map (fun t => Op.claim r total proof t)

/-- The claim-ledger invariant of spec 3 (ClaimedAmount): the cumulative
claimed amount of `r` equals the sum of the payouts `r` has received and
never exceeds the total entitlement `T` committed for `r`. -/
def LedgerInv (r : Address) (T : Nat) (s : State) : Prop :=
  s.claimed_amount r = payout_sum r s.payouts ∧ s.claimed_amount r ≤ T

/-- Funding invariant used for the irregular-interval analysis: the claimed
ledger of `r` never exceeds `T` and the custody pool can always cover the
remaining entitlement of `r`. -/
def PoolInv (r : Address) (T : Nat) (s : State) : Prop :=
  s.claimed_amount r ≤ T ∧ T ≤ s.claimed_amount r + s.pool

instance {e a : Type} [DecidableEq e] [DecidableEq a] :
    DecidableEq (Except e a)
  | .error x, .error y =>
    if h : x = y then .isTrue (by rw [h]) else .isFalse (by simp [h])
  | .error _, .ok _ => .isFalse (by simp)
  | .ok _, .error _ => .isFalse (by simp)
  | .ok x, .ok y =>
    if h : x = y then .isTrue (by rw [h]) else .isFalse (by simp [h])

/-- A concrete operation sequence (a claim, a root rotation, a rescue) used
to witness the ledger-invariant theorem. -/
def testOps : List Op :=
  [Op.claim 2 1000 [] 150, Op.set_merkle_root 1 5, Op.rescue_tokens 1 100]

/-- A concrete deployment used to witness the theorems on explicit inputs:
an injective-enough hash and leaf encoding, owner `1`, vesting from time
`100` to time `190`. -/
def testCfg : Config :=
  { hash2 := fun a b => (a + 2) * (b + 3)
    leaf := fun r t => 1000000 * r + t + 1
    owner := 1
    vesting_start_time := 100
    vesting_end_time := 190 }

/-- A concrete deployed state whose commitment root commits exactly the
entitlement `(recipient 2, total 1000)` (so the empty proof verifies it),
funded with `10000` tokens. -/
def testState : State := init (testCfg.leaf 2 1000) 10000

/-! ### Arithmetic facts about the vesting calculator -/

theorem instant_release_le (total : Nat) : instant_release total ≤ total := by
  unfold instant_release
  calc total * 31 / 100 ≤ total * 100 / 100 :=
        Nat.div_le_div_right (Nat.mul_le_mul_left total (by norm_num))
    _ = total := Nat.mul_div_cancel total (by norm_num)

theorem mul_div_le_left {e d : Nat} (a : Nat) (h : e ≤ d) : a * e / d ≤ a := by
  rcases Nat.eq_zero_or_pos d with hd | hd
  · simp [hd]
  · calc a * e / d ≤ a * d / d := Nat.div_le_div_right (Nat.mul_le_mul_left a h)
      _ = a := Nat.mul_div_cancel a hd

theorem vested_le_total (cfg : Config) (total now : Nat) :
    calculate_vested_amount cfg total now ≤ total := by
  unfold calculate_vested_amount
  split_ifs with h
  · exact le_refl total
  · have hlin : linear_vesting total * (now - cfg.vesting_start_time) /
        (cfg.vesting_end_time - cfg.vesting_start_time) ≤
        linear_vesting total := by
      apply mul_div_le_left
      omega
    have := instant_release_le total
    unfold linear_vesting at hlin ⊢
    omega

theorem vested_at_end (cfg : Config) (total now : Nat)
    (h : cfg.vesting_end_time ≤ now) :
    calculate_vested_amount cfg total now = total := by
  unfold calculate_vested_amount
  rw [if_pos h]

theorem vested_at_start (cfg : Config) (total : Nat)
    (hse : cfg.vesting_start_time < cfg.vesting_end_time) :
    calculate_vested_amount cfg total cfg.vesting_start_time =
      instant_release total := by
  unfold calculate_vested_amount
  rw [if_neg (by omega), Nat.sub_self, Nat.mul_zero, Nat.zero_div,
    Nat.add_zero]

/-! ### Structure of the claim protocol -/

theorem claim_zero_eq (cfg : Config) (s : State) (total : Nat)
    (proof : List Hash) (now : Nat) :
    claim cfg s 0 total proof now = .ok (0, s) := by
  unfold claim
  rw [if_pos rfl]

theorem claim_ok_elim {cfg : Config} {s : State} {r : Address} {t : Nat}
    {proof : List Hash} {now p : Nat} {s2 : State}
    (hr : r ≠ 0)
    (h : claim cfg s r t proof now = .ok (p, s2)) :
    cfg.vesting_start_time ≤ now ∧
    verify_proof cfg s.merkle_root r t proof = true ∧
    s.claimed_amount r < calculate_vested_amount cfg t now ∧
    p = calculate_vested_amount cfg t now - s.claimed_amount r ∧
    p ≤ s.pool ∧
    s2 = { s with
      claimed_amount := fun a =>
        if a = r then s.claimed_amount r + p else s.claimed_amount a
      payouts := s.payouts ++ [(r, p)]
      pool := s.pool - p } := by
  unfold claim at h
  rw [if_neg hr] at h
  split_ifs at h with h1 h2 h3 h4
  · injection h with h5
    injection h5 with hp hs
    have hlt : s.claimed_amount r < calculate_vested_amount cfg t now := by
      unfold payable at h3
      omega
    subst hp
    have hq : (payable cfg s r t now).toNat =
        calculate_vested_amount cfg t now - s.claimed_amount r := by
      unfold payable
      omega
    refine ⟨by omega, h2, hlt, by omega, ?_, ?_⟩
    · unfold payable at h4 ⊢
      omega
    · rw [← hs]

theorem claim_result_of_claim {cfg : Config} {s : State} {r : Address}
    {t : Nat} {proof : List Hash} {now p : Nat} {s2 : State}
    (h : claim cfg s r t proof now = .ok (p, s2)) :
    claim_result cfg s r t proof now = .ok p ∧
    claim_state cfg s r t proof now = s2 := by
  unfold claim_result claim_state
  rw [h]
  exact ⟨rfl, rfl⟩

theorem claim_of_claim_result {cfg : Config} {s : State} {r : Address}
    {t : Nat} {proof : List Hash} {now p : Nat}
    (h : claim_result cfg s r t proof now = .ok p) :
    claim cfg s r t proof now = .ok (p, claim_state cfg s r t proof now) := by
  unfold claim_result at h
  unfold claim_state
  rcases hc : claim cfg s r t proof now with e | ⟨q, s1⟩
  · rw [hc] at h
    exact absurd h (by simp [Except.map])
  · rw [hc] at h
    simp only [Except.map] at h
    injection h with h1
    rw [← h1]

theorem claim_state_of_error {cfg : Config} {s : State} {r : Address}
    {t : Nat} {proof : List Hash} {now : Nat} {e : ClaimError}
    (h : claim cfg s r t proof now = .error e) :
    claim_state cfg s r t proof now = s := by
  unfold claim_state
  rw [h]

theorem claim_ok_intro (cfg : Config) (s : State) (r : Address) (t : Nat)
    (proof : List Hash) (now : Nat)
    (hr : r ≠ 0) (hstart : cfg.vesting_start_time ≤ now)
    (hverify : verify_proof cfg s.merkle_root r t proof = true)
    (hlt : s.claimed_amount r < calculate_vested_amount cfg t now)
    (hpool : calculate_vested_amount cfg t now - s.claimed_amount r ≤
      s.pool) :
    claim cfg s r t proof now =
      .ok (calculate_vested_amount cfg t now - s.claimed_amount r,
        { s with
          claimed_amount := fun a =>
            if a = r then
              s.claimed_amount r +
                (calculate_vested_amount cfg t now - s.claimed_amount r)
            else s.claimed_amount a
          payouts := s.payouts ++
            [(r, calculate_vested_amount cfg t now - s.claimed_amount r)]
          pool := s.pool -
            (calculate_vested_amount cfg t now - s.claimed_amount r) }) := by
  have hq : (payable cfg s r t now).toNat =
      calculate_vested_amount cfg t now - s.claimed_amount r := by
    unfold payable
    omega
  unfold claim
  rw [if_neg hr, if_neg (by omega), if_pos hverify,
    if_neg (by unfold payable; omega), if_neg (by omega), hq]

theorem claim_nothing_intro (cfg : Config) (s : State) (r : Address)
    (t : Nat) (proof : List Hash) (now : Nat)
    (hr : r ≠ 0) (hstart : cfg.vesting_start_time ≤ now)
    (hverify : verify_proof cfg s.merkle_root r t proof = true)
    (hge : calculate_vested_amount cfg t now ≤ s.claimed_amount r) :
    claim cfg s r t proof now = .error .NothingToClaim := by
  unfold claim
  rw [if_neg hr, if_neg (by omega), if_pos hverify,
    if_pos (by unfold payable; omega)]

theorem claim_state_claimed_mono (cfg : Config) (s : State) (r : Address)
    (t : Nat) (proof : List Hash) (now : Nat) (a : Address) :
    s.claimed_amount a ≤ (claim_state cfg s r t proof now).claimed_amount a := by
  rcases hc : claim cfg s r t proof now with e | ⟨p, s2⟩
  · rw [claim_state_of_error hc]
  · rw [(claim_result_of_claim hc).2]
    by_cases hr : r = 0
    · subst hr
      rw [claim_zero_eq] at hc
      injection hc with h5
      injection h5 with hp hs
      rw [← hs]
    · obtain ⟨-, -, -, -, -, hs2⟩ := claim_ok_elim hr hc
      rw [hs2]
      dsimp only
      split_ifs with ha
      · subst ha
        omega
      · exact le_refl _

theorem claim_state_merkle_root (cfg : Config) (s : State) (r : Address)
    (t : Nat) (proof : List Hash) (now : Nat) :
    (claim_state cfg s r t proof now).merkle_root = s.merkle_root := by
  rcases hc : claim cfg s r t proof now with e | ⟨p, s2⟩
  · rw [claim_state_of_error hc]
  · rw [(claim_result_of_claim hc).2]
    by_cases hr : r = 0
    · subst hr
      rw [claim_zero_eq] at hc
      injection hc with h5
      injection h5 with hp hs
      rw [← hs]
    · obtain ⟨-, -, -, -, -, hs2⟩ := claim_ok_elim hr hc
      rw [hs2]

theorem step_claimed_mono (cfg : Config) (s : State) (op : Op)
    (a : Address) :
    s.claimed_amount a ≤ (step cfg s op).claimed_amount a := by
  cases op with
  | claim r t proof now => exact claim_state_claimed_mono cfg s r t proof now a
  | set_merkle_root c root =>
      show s.claimed_amount a ≤
        (match set_merkle_root cfg s c root with
          | .ok s2 => s2
          | .error _ => s).claimed_amount a
      unfold set_merkle_root
      split_ifs <;> exact le_refl _
  | rescue_tokens c amt =>
      show s.claimed_amount a ≤
        (match rescue_tokens cfg s c amt with
          | .ok s2 => s2
          | .error _ => s).claimed_amount a
      unfold rescue_tokens
      split_ifs <;> exact le_refl _

theorem payout_sum_append (r : Address) (l1 l2 : List (Address × Nat)) :
    payout_sum r (l1 ++ l2) = payout_sum r l1 + payout_sum r l2 := by
  induction l1 with
  | nil => simp [payout_sum]
  | cons e l ih => simp [payout_sum, ih, Nat.add_assoc]

theorem exec_append (cfg : Config) (s : State) (l1 l2 : List Op) :
    exec cfg s (l1 ++ l2) = exec cfg (exec cfg s l1) l2 := by
  unfold exec
  exact List.foldl_append _ _ _ _

theorem ledger_inv_step (cfg : Config) (r : Address) (T : Nat) (s : State)
    (op : Op) (hT : (claim_total_for r op).getD T = T)
    (hinv : LedgerInv r T s) : LedgerInv r T (step cfg s op) := by
  obtain ⟨hsum, hle⟩ := hinv
  cases op with
  | claim r2 t2 proof2 now2 =>
    show LedgerInv r T (claim_state cfg s r2 t2 proof2 now2)
    rcases hc : claim cfg s r2 t2 proof2 now2 with e | ⟨p, s2⟩
    · rw [claim_state_of_error hc]
      exact ⟨hsum, hle⟩
    · rw [(claim_result_of_claim hc).2]
      by_cases hr2 : r2 = 0
      · subst hr2
        rw [claim_zero_eq] at hc
        injection hc with h5
        injection h5 with hp hs
        rw [← hs]
        exact ⟨hsum, hle⟩
      · obtain ⟨-, -, hlt, hp, -, hs2⟩ := claim_ok_elim hr2 hc
        rw [hs2]
        unfold LedgerInv
        dsimp only
        rw [payout_sum_append]
        by_cases ha : r = r2
        · subst ha
          simp [claim_total_for] at hT
          have hv := vested_le_total cfg t2 now2
          have hps : payout_sum r [(r, p)] = p := by
            simp [payout_sum]
          rw [hps]
          split_ifs with hrr
          · omega
          · exact absurd rfl hrr
        · have hab : r2 ≠ r := fun h => ha h.symm
          have hps : payout_sum r [(r2, p)] = 0 := by
            simp [payout_sum, hab]
          rw [hps, if_neg ha]
          omega
  | set_merkle_root c root =>
    show LedgerInv r T
      (match set_merkle_root cfg s c root with
        | .ok s2 => s2
        | .error _ => s)
    unfold set_merkle_root
    split_ifs <;> exact ⟨hsum, hle⟩
  | rescue_tokens c amt =>
    show LedgerInv r T
      (match rescue_tokens cfg s c amt with
        | .ok s2 => s2
        | .error _ => s)
    unfold rescue_tokens
    split_ifs <;> exact ⟨hsum, hle⟩

theorem ledger_inv_exec (cfg : Config) (r : Address) (T : Nat)
    (ops : List Op) (s : State)
    (hT : ∀ op ∈ ops, (claim_total_for r op).getD T = T)
    (hinv : LedgerInv r T s) : LedgerInv r T (exec cfg s ops) := by
  induction ops generalizing s with
  | nil => exact hinv
  | cons op l ih =>
    exact ih (step cfg s op)
      (fun o ho => hT o (List.mem_cons_of_mem _ ho))
      (ledger_inv_step cfg r T s op (hT op (List.mem_cons_self _ _)) hinv)

theorem exec_take_mono (cfg : Config) (s0 : State) (ops : List Op)
    (r : Address) (n : Nat) :
    (exec cfg s0 (ops.take n)).claimed_amount r ≤
      (exec cfg s0 (ops.take (n + 1))).claimed_amount r := by
  rcases hn : ops[n]? with _ | op
  · have hlen : ops.length ≤ n := by
      rwa [List.getElem?_eq_none_iff] at hn
    rw [List.take_of_length_le hlen,
      List.take_of_length_le (le_trans hlen (Nat.le_succ n))]
  · have htake : ops.take (n + 1) = ops.take n ++ [op] := by
      rw [List.take_succ, hn]
      rfl
    rw [htake, exec_append]
    exact step_claimed_mono cfg (exec cfg s0 (ops.take n)) op r

theorem pool_inv_claim_step (cfg : Config) (s : State) (r : Address)
    (T : Nat) (proof : List Hash) (now : Nat)
    (hinv : PoolInv r T s) : PoolInv r T (claim_state cfg s r T proof now) := by
  obtain ⟨h1, h2⟩ := hinv
  rcases hc : claim cfg s r T proof now with e | ⟨p, s2⟩
  · rw [claim_state_of_error hc]
    exact ⟨h1, h2⟩
  · rw [(claim_result_of_claim hc).2]
    by_cases hr : r = 0
    · subst hr
      rw [claim_zero_eq] at hc
      injection hc with h5
      injection h5 with hp hs
      rw [← hs]
      exact ⟨h1, h2⟩
    · obtain ⟨-, -, hlt, hp, hpool, hs2⟩ := claim_ok_elim hr hc
      have hv := vested_le_total cfg T now
      rw [hs2]
      unfold PoolInv
      dsimp only
      rw [if_pos rfl]
      omega

theorem pool_inv_exec (cfg : Config) (r : Address) (T : Nat)
    (proof : List Hash) (ts : List Nat) (s : State)
    (hinv : PoolInv r T s) :
    PoolInv r T (exec cfg s (claim_ops r T proof ts)) ∧
    (exec cfg s (claim_ops r T proof ts)).merkle_root = s.merkle_root := by
  induction ts generalizing s with
  | nil => exact ⟨hinv, rfl⟩
  | cons t l ih =>
    have h1 := pool_inv_claim_step cfg s r T proof t hinv
    have h2 := claim_state_merkle_root cfg s r T proof t
    obtain ⟨ha, hb⟩ := ih (claim_state cfg s r T proof t) h1
    exact ⟨ha, by rw [show exec cfg s (claim_ops r T proof (t :: l)) =
      exec cfg (claim_state cfg s r T proof t) (claim_ops r T proof l)
      from rfl, hb, h2]⟩

theorem claim_saturates (cfg : Config) (s : State) (r : Address) (T : Nat)
    (proof : List Hash) (tl : Nat)
    (hr : r ≠ 0)
    (hstart : cfg.vesting_start_time ≤ tl)
    (hend : cfg.vesting_end_time ≤ tl)
    (hverify : verify_proof cfg s.merkle_root r T proof = true)
    (hinv : PoolInv r T s) :
    (claim_state cfg s r T proof tl).claimed_amount r = T := by
  obtain ⟨h1, h2⟩ := hinv
  have hv : calculate_vested_amount cfg T tl = T := vested_at_end cfg T tl hend
  by_cases heq : s.claimed_amount r = T
  · rw [claim_state_of_error
      (claim_nothing_intro cfg s r T proof tl hr hstart hverify (by omega))]
    exact heq
  · have hlt : s.claimed_amount r < calculate_vested_amount cfg T tl := by
      omega
    have hok := claim_ok_intro cfg s r T proof tl hr hstart hverify hlt
      (by omega)
    rw [(claim_result_of_claim hok).2]
    dsimp only
    rw [if_pos rfl]
    omega

/-! ### The claims -/

/-- C1: for every `total_amount` and every schedule with
`end_time > start_time`, the cumulative unlocked amount computed at any time
`now >= end_time` equals `total_amount` exactly, so a successful claim at or
after `end_time` pays out the full remaining entitlement and brings the
recipient's cumulative claimed balance to exactly `total_amount`. -/
theorem full_vest_saturation (cfg : Config) (s : State) (r : Address)
    (total : Nat) (proof : List Hash) (now p : Nat)
    (hse : cfg.vesting_start_time < cfg.vesting_end_time)
    (hend : cfg.vesting_end_time ≤ now)
    (hr : r ≠ 0)
    (hok : claim_result cfg s r total proof now = .ok p) :
    calculate_vested_amount cfg total now = total ∧
    p = total - s.claimed_amount r ∧
    (claim_state cfg s r total proof now).claimed_amount r = total := by
  have hc := claim_of_claim_result hok
  obtain ⟨-, -, hlt, hp, -, hs2⟩ := claim_ok_elim hr hc
  have hv := vested_at_end cfg total now hend
  refine ⟨hv, by omega, ?_⟩
  rw [hs2]
  dsimp only
  rw [if_pos rfl]
  omega

/-- Witness for C1: recipient `2` claims its full entitlement `1000` at the
vesting end time `190`. -/
theorem full_vest_saturation_witness :
    calculate_vested_amount testCfg 1000 190 = 1000 ∧
    1000 = 1000 - testState.claimed_amount 2 ∧
    (claim_state testCfg testState 2 1000 [] 190).claimed_amount 2 = 1000 :=
  full_vest_saturation testCfg testState 2 1000 [] 190 1000 (by decide)
    (by decide) (by decide) (by decide)

/-- C2: for every recipient `r` and every sequence of operations (claims,
root rotations, rescues) in which every claim for `r` names the committed
total `T`, the ledger value `claimed_amount[r]` starts at `0`, never
decreases across any operation, equals the sum of all payouts `r` has
received, and never exceeds `T`. -/
theorem claimed_amount_ledger_laws (cfg : Config) (root : Hash)
    (pool0 : Nat) (ops : List Op) (r : Address) (T : Nat)
    (hT : ∀ op ∈ ops, (claim_total_for r op).getD T = T) :
    (init root pool0).claimed_amount r = 0 ∧
    (∀ n : Nat,
      (exec cfg (init root pool0) (ops.take n)).claimed_amount r ≤
        (exec cfg (init root pool0) (ops.take (n + 1))).claimed_amount r) ∧
    (exec cfg (init root pool0) ops).claimed_amount r =
      payout_sum r (exec cfg (init root pool0) ops).payouts ∧
    (exec cfg (init root pool0) ops).claimed_amount r ≤ T := by
  have hinv0 : LedgerInv r T (init root pool0) := ⟨rfl, Nat.zero_le T⟩
  obtain ⟨ha, hb⟩ := ledger_inv_exec cfg r T ops (init root pool0) hT hinv0
  exact ⟨rfl, fun n => exec_take_mono cfg (init root pool0) ops r n, ha, hb⟩

/-- Witness for C2: a concrete sequence of a claim, a root rotation and a
rescue for recipient `2` with committed total `1000`. -/
theorem claimed_amount_ledger_laws_witness :
    (∀ op ∈ testOps, (claim_total_for 2 op).getD 1000 = 1000) ∧
    ((init (testCfg.leaf 2 1000) 10000).claimed_amount 2 = 0 ∧
     (∀ n : Nat,
       (exec testCfg (init (testCfg.leaf 2 1000) 10000)
         (testOps.take n)).claimed_amount 2 ≤
         (exec testCfg (init (testCfg.leaf 2 1000) 10000)
           (testOps.take (n + 1))).claimed_amount 2) ∧
     (exec testCfg (init (testCfg.leaf 2 1000) 10000)
       testOps).claimed_amount 2 =
       payout_sum 2 (exec testCfg (init (testCfg.leaf 2 1000) 10000)
         testOps).payouts ∧
     (exec testCfg (init (testCfg.leaf 2 1000) 10000)
       testOps).claimed_amount 2 ≤ 1000) :=
  ⟨by decide, claimed_amount_ledger_laws testCfg (testCfg.leaf 2 1000)
    10000 testOps 2 1000 (by decide)⟩

/-- C3: for every `total_amount` and every proof, including a malformed one,
calling claim with the null/zero recipient identity returns `0`, raises no
error (in particular never `InvalidProof`), and mutates no state; the
statement holds for every state, root and proof, so the guard is independent
of proof verification. -/
theorem claim_zero_identity (cfg : Config) (s : State) (total : Nat)
    (proof : List Hash) (now : Nat) :
    claim cfg s 0 total proof now = .ok (0, s) ∧
    claim_result cfg s 0 total proof now = .ok 0 ∧
    claim_state cfg s 0 total proof now = s := by
  have h := claim_zero_eq cfg s total proof now
  exact ⟨h, (claim_result_of_claim h).1, (claim_result_of_claim h).2⟩

/-- C4: if a first claim by recipient `r` at time `now` succeeds paying some
`p > 0`, then a second claim by the same recipient at the same instant fails
with `NothingToClaim` and leaves the state (claimed ledger, payout log and
pool) unchanged. -/
theorem double_claim_nothing (cfg : Config) (s : State) (r : Address)
    (total : Nat) (proof : List Hash) (now p : Nat)
    (hr : r ≠ 0) (hp : 0 < p)
    (hok : claim_result cfg s r total proof now = .ok p) :
    claim cfg (claim_state cfg s r total proof now) r total proof now =
      .error .NothingToClaim ∧
    claim_state cfg (claim_state cfg s r total proof now) r total proof
      now = claim_state cfg s r total proof now := by
  have hc := claim_of_claim_result hok
  obtain ⟨hstart, hverify, hlt, hp2, -, hs2⟩ := claim_ok_elim hr hc
  have hroot : (claim_state cfg s r total proof now).merkle_root =
      s.merkle_root := by
    rw [hs2]
  have hclaimed : (claim_state cfg s r total proof now).claimed_amount r =
      calculate_vested_amount cfg total now := by
    rw [hs2]
    dsimp only
    rw [if_pos rfl]
    omega
  have herr := claim_nothing_intro cfg
    (claim_state cfg s r total proof now) r total proof now hr hstart
    (by rw [hroot]; exact hverify) (le_of_eq hclaimed.symm)
  exact ⟨herr, claim_state_of_error herr⟩

/-- Witness for C4: recipient `2` claims `693` at time `150`, and the
immediate repeat claim fails with `NothingToClaim`. -/
theorem double_claim_nothing_witness :
    (2 : Address) ≠ 0 ∧ 0 < 693 ∧
    claim_result testCfg testState 2 1000 [] 150 = .ok 693 ∧
    (claim testCfg (claim_state testCfg testState 2 1000 [] 150) 2 1000 []
      150 = .error .NothingToClaim ∧
     claim_state testCfg (claim_state testCfg testState 2 1000 [] 150) 2
       1000 [] 150 = claim_state testCfg testState 2 1000 [] 150) :=
  ⟨by decide, by decide, by decide,
    double_claim_nothing testCfg testState 2 1000 [] 150 693 (by decide)
      (by decide) (by decide)⟩

/-- C5: for every `total_amount`, the instant-release part
`floor(total_amount * 31/100)` and the linearly vested pool used by the
vesting calculation sum to `total_amount` exactly — the pool is
`total_amount - instant`, not an independently floored fraction. -/
theorem instant_linear_split (total : Nat) :
    instant_release total = total * 31 / 100 ∧
    instant_release total + linear_vesting total = total := by
  have h := instant_release_le total
  exact ⟨rfl, by unfold linear_vesting; omega⟩

/-- C6: the read-only query `claimable_amount` (a pure function of the
state, mutating nothing) returns exactly the amount a successful claim at
the same time and in the same state pays out. -/
theorem claimable_matches_claim (cfg : Config) (s : State) (r : Address)
    (total : Nat) (proof : List Hash) (now p : Nat)
    (hok : claim_result cfg s r total proof now = .ok p) :
    claimable_amount cfg s r total now = p := by
  by_cases hr : r = 0
  · subst hr
    have h0 := (claim_result_of_claim (claim_zero_eq cfg s total proof now)).1
    rw [h0] at hok
    have hp : p = 0 := by
      simp only [Except.ok.injEq] at hok
      omega
    rw [hp]
    unfold claimable_amount
    rw [if_pos rfl]
  · obtain ⟨-, -, hlt, hp, -, -⟩ :=
      claim_ok_elim hr (claim_of_claim_result hok)
    unfold claimable_amount
    rw [if_neg hr]
    omega

/-- Witness for C6: at the vesting start the query returns `310`, exactly
the amount the successful claim pays. -/
theorem claimable_matches_claim_witness :
    claimable_amount testCfg testState 2 1000 100 = 310 :=
  claimable_matches_claim testCfg testState 2 1000 [] 100 310 (by decide)

/-- C7: for every non-null recipient, total amount and proof (valid or
not), claiming at any time before `vesting_start_time` fails with
`ClaimingNotYetAvailable` and mutates no state; the statement holds for
every proof, so the gate precedes proof verification and payment. -/
theorem claim_before_start_rejected (cfg : Config) (s : State)
    (r : Address) (total : Nat) (proof : List Hash) (now : Nat)
    (hr : r ≠ 0) (hnow : now < cfg.vesting_start_time) :
    claim cfg s r total proof now = .error .ClaimingNotYetAvailable ∧
    claim_state cfg s r total proof now = s := by
  have herr : claim cfg s r total proof now =
      .error .ClaimingNotYetAvailable := by
    unfold claim
    rw [if_neg hr, if_pos hnow]
  exact ⟨herr, claim_state_of_error herr⟩

/-- Witness for C7: claiming one second before the start time is
rejected. -/
theorem claim_before_start_rejected_witness :
    claim testCfg testState 2 1000 [] 99 =
      .error .ClaimingNotYetAvailable ∧
    claim_state testCfg testState 2 1000 [] 99 = testState :=
  claim_before_start_rejected testCfg testState 2 1000 [] 99 (by decide)
    (by decide)

/-- C8: for every `total_amount` and schedule with
`end_time > start_time`, the cumulative unlocked amount at
`now = start_time` equals `floor(total_amount * 31 / 100)`, and a first
claim (fresh ledger, valid proof, positive instant part, funded pool)
exactly at start pays exactly that amount. -/
theorem instant_release_at_start (cfg : Config) (s : State) (r : Address)
    (total : Nat) (proof : List Hash)
    (hse : cfg.vesting_start_time < cfg.vesting_end_time)
    (hr : r ≠ 0)
    (hclaimed : s.claimed_amount r = 0)
    (hverify : verify_proof cfg s.merkle_root r total proof = true)
    (hpos : 0 < instant_release total)
    (hpool : instant_release total ≤ s.pool) :
    calculate_vested_amount cfg total cfg.vesting_start_time =
      total * 31 / 100 ∧
    claim_result cfg s r total proof cfg.vesting_start_time =
      .ok (total * 31 / 100) := by
  have hv := vested_at_start cfg total hse
  have hlt : s.claimed_amount r <
      calculate_vested_amount cfg total cfg.vesting_start_time := by
    omega
  have hok := claim_ok_intro cfg s r total proof cfg.vesting_start_time hr
    (le_refl _) hverify hlt (by omega)
  have hval : calculate_vested_amount cfg total cfg.vesting_start_time -
      s.claimed_amount r = total * 31 / 100 := by
    rw [hv, hclaimed]
    unfold instant_release
    omega
  have hir : instant_release total = total * 31 / 100 := rfl
  refine ⟨by rw [hv, hir], ?_⟩
  rw [(claim_result_of_claim hok).1, hval]

/-- Witness for C8: at start time `100` the vested amount is
`310 = floor(1000 * 31 / 100)` and the first claim pays exactly it. -/
theorem instant_release_at_start_witness :
    calculate_vested_amount testCfg 1000 testCfg.vesting_start_time =
      1000 * 31 / 100 ∧
    claim_result testCfg testState 2 1000 [] testCfg.vesting_start_time =
      .ok (1000 * 31 / 100) :=
  instant_release_at_start testCfg testState 2 1000 [] (by decide)
    (by decide) (by decide) (by decide) (by decide) (by decide)

/-- C9: for every recipient with a valid proof and a funded pool, any
finite sequence of claim transactions whose last time is at or after
`vesting_end_time` leaves the recipient's cumulative claimed balance at
exactly `total_amount` — the same as a single claim at that last time
(claim scheduling is path-independent in the final total). -/
theorem irregular_claims_saturate (cfg : Config) (root : Hash)
    (pool0 : Nat) (r : Address) (total : Nat) (proof : List Hash)
    (ts : List Nat) (tlast : Nat)
    (hse : cfg.vesting_start_time < cfg.vesting_end_time)
    (hr : r ≠ 0)
    (hpool : total ≤ pool0)
    (hverify : verify_proof cfg root r total proof = true)
    (hend : cfg.vesting_end_time ≤ tlast) :
    (exec cfg (init root pool0)
      (claim_ops r total proof (ts ++ [tlast]))).claimed_amount r =
      total ∧
    (exec cfg (init root pool0)
      (claim_ops r total proof [tlast])).claimed_amount r = total := by
  have hinv0 : PoolInv r total (init root pool0) :=
    ⟨Nat.zero_le _, by show total ≤ 0 + pool0; omega⟩
  constructor
  · have hmap : claim_ops r total proof (ts ++ [tlast]) =
        claim_ops r total proof ts ++ [Op.claim r total proof tlast] := by
      unfold claim_ops
      rw [List.map_append]
      rfl
    rw [hmap, exec_append]
    obtain ⟨hinv, hroot⟩ :=
      pool_inv_exec cfg r total proof ts (init root pool0) hinv0
    have hroot2 : (exec cfg (init root pool0)
        (claim_ops r total proof ts)).merkle_root = root := by
      rw [hroot]
      rfl
    show (claim_state cfg
      (exec cfg (init root pool0) (claim_ops r total proof ts)) r total
      proof tlast).claimed_amount r = total
    exact claim_saturates cfg _ r total proof tlast hr (by omega) hend
      (by rw [hroot2]; exact hverify) hinv
  · show (claim_state cfg (init root pool0) r total proof
      tlast).claimed_amount r = total
    exact claim_saturates cfg _ r total proof tlast hr (by omega) hend
      hverify hinv0

/-- Witness for C9: claims at times `101, 120, 150` then at `200` (after
the end `190`) reach the full entitlement `1000`, just like the single
claim at `200`. -/
theorem irregular_claims_saturate_witness :
    (exec testCfg (init (testCfg.leaf 2 1000) 10000)
      (claim_ops 2 1000 [] ([101, 120, 150] ++ [200]))).claimed_amount 2 =
      1000 ∧
    (exec testCfg (init (testCfg.leaf 2 1000) 10000)
      (claim_ops 2 1000 [] [200])).claimed_amount 2 = 1000 :=
  irregular_claims_saturate testCfg (testCfg.leaf 2 1000) 10000 2 1000 []
    [101, 120, 150] 200 (by decide) (by decide) (by decide) (by decide)
    (by decide)

/-- C10: for every `total_amount`, state and time, the read-only query
`claimable_amount` with the null/zero recipient identity returns `0`,
mirroring at the query surface the zero-identity short-circuit of the claim
protocol. -/
theorem claimable_zero_identity (cfg : Config) (s : State)
    (total now : Nat) :
    claimable_amount cfg s 0 total now = 0 := by
  unfold claimable_amount
  rw [if_pos rfl]

end VestedClaims
